import Mathlib

/-!
# Gemini TaskFlow — task hierarchy engine, shallow embedding

This file embeds the core logic of the Gemini TaskFlow client
(`src/App.tsx`, `src/unnamed/part_000` (App variant with import/export),
`src/unnamed/part_001` (TaskList)) into Lean 4 and proves/refutes the
frozen specification claims about it.

Conventions of the embedding:
* `crypto.randomUUID()` and `Date.now()` are modelled by explicit
  parameters (`newId`, `now`); freshness of generated ids is a hypothesis
  where a claim needs it.
* JavaScript's stable `Array.prototype.sort(cmp)` is modelled by
  `List.mergeSort` with `le a b := cmp a b ≤ 0`.
* The optional TypeScript fields (`isAiGenerated?`, `parentId?`,
  `isExpanded?`) are `Option`s; JS truthiness of an optional string is
  `none` or `some ""` being falsy.
* The untyped records flowing through the backup-import path are
  modelled by `RTask`, a record all of whose fields are optional.
-/

namespace TaskFlow

/-- `Priority` enum from `src/types.ts`. -/
inductive Priority where
  | low
  | medium
  | high
deriving DecidableEq, Repr

/-- `Task` interface from `src/types.ts`.  `createdAt` is a JS millisecond
timestamp (a number); modelled as `Int`. -/
structure Task where
  id : String
  text : String
  completed : Bool
  priority : Priority
  createdAt : Int
  isAiGenerated : Option Bool := none
  parentId : Option String := none
  isExpanded : Option Bool := none
deriving DecidableEq, Repr

/-- `FilterType` enum from `src/types.ts`. -/
inductive FilterType where
  | all
  | active
  | completed
deriving DecidableEq, Repr

/-- `AiSuggestion` interface from `src/types.ts`: one suggested subtask
returned by the generation collaborator. -/
structure AiSuggestion where
  text : String
  priority : Priority
deriving DecidableEq, Repr

/-- `addTask` from `src/App.tsx` / `src/unnamed/part_000`: prepends a fresh
top-level task.  The generated UUID and timestamp are parameters. -/
def addTask (newId : String) (now : Int) (text : String) (priority : Priority)
    (isAiGenerated : Bool) (prev : List Task) : List Task :=
  { id := newId, text := text, completed := false, priority := priority,
    createdAt := now, isAiGenerated := some isAiGenerated,
    isExpanded := some true } :: prev

/-- The subtask record built by `addSubtask`. -/
def mkSubtask (newId : String) (now : Int) (parentId : String) (text : String) : Task :=
  { id := newId, text := text, completed := false, priority := .medium,
    createdAt := now, isAiGenerated := some false, parentId := some parentId,
    isExpanded := some true }

/-- `addSubtask` from `src/App.tsx` / `src/unnamed/part_000`: appends the new
subtask, then maps over the result forcing `isExpanded := true` on any task
whose id equals `parentId`. -/
def addSubtask (newId : String) (now : Int) (parentId : String) (text : String)
    (prev : List Task) : List Task :=
  let updatedTasks := prev ++ [mkSubtask newId now parentId text]
  updatedTasks.map (fun t => if t.id = parentId then { t with isExpanded := some true } else t)

/-- `toggleTask`: flips `completed` on the matching task. -/
def toggleTask (id : String) (prev : List Task) : List Task :=
  prev.map (fun t => if t.id = id then { t with completed := !t.completed } else t)

/-- `toggleTaskExpansion`: flips `isExpanded`, treating absence as `true`. -/
def toggleTaskExpansion (id : String) (prev : List Task) : List Task :=
  prev.map (fun t =>
    if t.id = id then { t with isExpanded := some (!(t.isExpanded.getD true)) } else t)

/-- `updateTaskPriority`: replaces `priority` on the matching task. -/
def updateTaskPriority (id : String) (priority : Priority) (prev : List Task) : List Task :=
  prev.map (fun t => if t.id = id then { t with priority := priority } else t)

/-- `deleteTask`: removes the task with this id and every task whose
`parentId` equals it (`prev.filter(t => t.id !== id && t.parentId !== id)`). -/
def deleteTask (id : String) (prev : List Task) : List Task :=
  prev.filter (fun t => !(t.id == id) && !(t.parentId == some id))

/-- The fresh child tasks built in `handleBreakdown`'s success callback:
one per suggestion, with a generated UUID each (modelled by `newIds`). -/
def mkNewSubTasks (id : String) (subtasks : List AiSuggestion) (newIds : List String)
    (now : Int) : List Task :=
  (subtasks.zip newIds).map (fun p =>
    { id := p.2, text := p.1.text, completed := false, priority := p.1.priority,
      createdAt := now, isAiGenerated := some true, parentId := some id,
      isExpanded := some true })

/-- The collection update `handleBreakdown` applies on a successful response
(`src/unnamed/part_000` lines 139–157): if the suggestion list is non-empty,
drop every task whose `parentId` equals the parent's id, force the parent
expanded, and append the fresh children; otherwise leave the collection
unchanged. -/
def handleBreakdownApply (id : String) (subtasks : List AiSuggestion)
    (newIds : List String) (now : Int) (prev : List Task) : List Task :=
  if subtasks.length > 0 then
    let newSubTasks := mkNewSubTasks id subtasks newIds now
    let existingWithoutSubtasks := prev.filter (fun t => !(t.parentId == some id))
    (existingWithoutSubtasks.map (fun t =>
      if t.id = id then { t with isExpanded := some true } else t)) ++ newSubTasks
  else prev

/-- The synchronous pre-step of `handleBreakdown`: mark the parent expanded
before awaiting the generation call. -/
def handleBreakdownStart (id : String) (prev : List Task) : List Task :=
  prev.map (fun t => if t.id = id then { t with isExpanded := some true } else t)

/-- The filter applied in `App` before handing the collection to `TaskList`. -/
def filterTasks (filter : FilterType) (tasks : List Task) : List Task :=
  tasks.filter (fun t =>
    match filter with
    | .active => !t.completed
    | .completed => t.completed
    | .all => true)

/-! ## Tree Builder (`src/unnamed/part_001`, `TaskList.sortedTree`) -/

/-- `priorityWeight` map from `src/unnamed/part_001`: High 3, Medium 2, Low 1. -/
def priorityWeight : Priority → Int
  | .high => 3
  | .medium => 2
  | .low => 1

/-- Root classification from `sortedTree` step 1:
`!task.parentId || !taskIds.has(task.parentId)`.  JS truthiness makes an
absent or empty-string `parentId` falsy. -/
def isRootIn (taskIds : List String) (t : Task) : Bool :=
  match t.parentId with
  | none => true
  | some p => p == "" || !(taskIds.contains p)

/-- Insert a child under a key of the children map, mirroring the JS `Map`
update: an existing key keeps its position and appends to its list; a new
key is appended at the end (insertion order). -/
def insertChild (m : List (String × List Task)) (p : String) (t : Task) :
    List (String × List Task) :=
  match m with
  | [] => [(p, [t])]
  | (q, l) :: rest =>
      if q = p then (q, l ++ [t]) :: rest else (q, l) :: insertChild rest p t

/-- One iteration of the separation loop of `sortedTree`: a root is pushed
onto the roots list; a non-root (whose `parentId` is then necessarily a
non-empty present id, mirroring the `else if (task.parentId)` guard) is
inserted into the children map under its parent id. -/
def classifyStep (taskIds : List String) (acc : List Task × List (String × List Task))
    (task : Task) : List Task × List (String × List Task) :=
  if isRootIn taskIds task then
    (acc.1 ++ [task], acc.2)
  else
    match task.parentId with
    | some p => if p == "" then acc else (acc.1, insertChild acc.2 p task)
    | none => acc

/-- The separation loop of `sortedTree` (`tasks.forEach`), with the id set
fixed up front as in the source. -/
def classifyAux (taskIds : List String) (tasks : List Task)
    (acc : List Task × List (String × List Task)) :
    List Task × List (String × List Task) :=
  tasks.foldl (classifyStep taskIds) acc

/-- Step 1 of `sortedTree`: partition the incoming (already filtered) task
list into roots and a per-parent children map. -/
def classify (tasks : List Task) : List Task × List (String × List Task) :=
  classifyAux (tasks.map (·.id)) tasks ([], [])

/-- The JS comparator used by `sortTasks`:
priority difference first, then `b.createdAt - a.createdAt`. -/
def cmpTasks (a b : Task) : Int :=
  let pDiff := priorityWeight b.priority - priorityWeight a.priority
  if pDiff ≠ 0 then pDiff else b.createdAt - a.createdAt

/-- `a` may precede `b` under the comparator (comparator value `≤ 0`). -/
def taskLe (a b : Task) : Bool := cmpTasks a b ≤ 0

/-- `sortTasks` from `src/unnamed/part_001`: JS `Array.prototype.sort` is
stable, modelled by `mergeSort`. -/
def sortTasks (l : List Task) : List Task := l.mergeSort taskLe

/-- `sortedTree` from `src/unnamed/part_001`: classify, sort the roots, and
sort each per-parent child group. -/
def sortedTree (tasks : List Task) : List Task × List (String × List Task) :=
  let acc := classify tasks
  (sortTasks acc.1, acc.2.map (fun pl => (pl.1, sortTasks pl.2)))

/-- Lookup of a parent's child group in the children map (`Map.get`,
absent key giving the empty group). -/
def lookupGroup (m : List (String × List Task)) (p : String) : List Task :=
  match m with
  | [] => []
  | (q, l) :: rest => if q = p then l else lookupGroup rest p

/-! ## Merge/Import Resolver (`src/unnamed/part_000`, `importTasks`)

The records in an imported JSON file are untyped; `RTask` models a
task-shaped record all of whose fields may be absent. -/

/-- An untyped task-shaped record from an import payload (or an existing
collection entry viewed at the raw level). -/
structure RTask where
  id : Option String := none
  text : Option String := none
  completed : Option Bool := none
  priority : Option Priority := none
  createdAt : Option Int := none
  isAiGenerated : Option Bool := none
  parentId : Option String := none
  isExpanded : Option Bool := none
deriving DecidableEq, Repr

/-- JS truthiness of an optional string field: absent and `""` are falsy. -/
def truthyStr : Option String → Bool
  | none => false
  | some s => s ≠ ""

/-- The per-record validation `t.id && t.text` in `importTasks`. -/
def validRecord (t : RTask) : Bool := truthyStr t.id && truthyStr t.text

/-- The comparator `(a, b) => b.createdAt - a.createdAt` used by the
import-time normalization sort.  A missing `createdAt` makes the JS
subtraction `NaN`, which `Array.prototype.sort` treats as `0`. -/
def cmpCreatedAt (a b : RTask) : Int :=
  match b.createdAt, a.createdAt with
  | some x, some y => x - y
  | _, _ => 0

/-- `a` may precede `b` under the import normalization comparator. -/
def rtaskLe (a b : RTask) : Bool := cmpCreatedAt a b ≤ 0

/-- A parsed import payload: a JSON array of records, or any other JSON
value (`Array.isArray` false). -/
inductive ImportedJson where
  | arr (records : List RTask)
  | nonArray
deriving DecidableEq, Repr

/-- Effect of an import on the error banner: left untouched, explicitly
cleared (`setError(null)`), or set to a message. -/
inductive ErrEffect where
  | untouched
  | cleared
  | msg (s : String)
deriving DecidableEq, Repr

/-- Whether an import outcome produced a user-visible error message. -/
def ErrEffect.isError : ErrEffect → Bool
  | .msg _ => true
  | _ => false

/-- `importTasks` from `src/unnamed/part_000` (lines 44–67), after JSON
parsing: a non-array payload is silently ignored; an array is validated
(`every t.id && t.text`), deduplicated against the ids already present,
and either reported as all-duplicates or merged and re-sorted by
`createdAt` descending. -/
def importTasks (payload : ImportedJson) (prev : List RTask) :
    List RTask × ErrEffect :=
  match payload with
  | .nonArray => (prev, .untouched)
  | .arr imported =>
    if imported.all validRecord then
      let existingIds := prev.map (·.id)
      let uniqueNewTasks := imported.filter (fun t => !(existingIds.contains t.id))
      if uniqueNewTasks.isEmpty then
        (prev, .msg "All tasks in this file are already present.")
      else
        ((prev ++ uniqueNewTasks).mergeSort rtaskLe, .cleared)
    else
      (prev, .msg "Invalid backup file format.")

/-- The merge itself (`merge(A, B)` of the spec): the collection produced by
importing candidate list `B` into collection `A`. -/
def mergeImport (A B : List RTask) : List RTask := (importTasks (.arr B) A).1

/-! ## Helper lemmas -/

lemma expand_if_id (pid : String) (t : Task) :
    (if t.id = pid then { t with isExpanded := some true } else t).id = t.id := by
  split <;> rfl

lemma expand_if_parentId (pid : String) (t : Task) :
    (if t.id = pid then { t with isExpanded := some true } else t).parentId = t.parentId := by
  split <;> rfl

/-! ## Claim C5 — delete removes exactly the task and its children -/

/-- C5: for every collection and id, `delete(id)` keeps precisely the tasks
whose id differs from the argument and whose `parentId` differs from it,
each unchanged field-for-field (the result is a sublist of the input). -/
theorem claim5_delete_exact (i : String) (ts : List Task) :
    (∀ x : Task, x ∈ deleteTask i ts ↔ x ∈ ts ∧ ¬x.id = i ∧ ¬x.parentId = some i) ∧
    (deleteTask i ts).Sublist ts := by
  refine ⟨fun x => ?_, List.filter_sublist _⟩
  simp [deleteTask, List.mem_filter, and_assoc]

/-! ## Claim C2 — addSubtask with a stale parent id -/

/-- C2 counterexample: on the empty collection (where no task matches the
parent id `"p"`), `addSubtask` is not a no-op — it still appends the new
subtask, so the result differs from the input collection. -/
theorem claim2_counterexample :
    addSubtask "n" 0 "p" "x" ([] : List Task) ≠ [] := by decide

/-- C2 amended: when `parentId` matches no task in the collection,
`addSubtask` appends exactly one new child task carrying that (stale)
`parentId` and leaves every existing task unchanged; it does not crash or
alter existing state, but it is not a no-op. -/
theorem claim2_amended (newId : String) (now : Int) (parentId text : String)
    (prev : List Task) (h : ∀ t ∈ prev, t.id ≠ parentId) :
    addSubtask newId now parentId text prev =
      prev ++ [mkSubtask newId now parentId text] := by
  unfold addSubtask
  rw [List.map_append]
  congr 1
  · conv_rhs => rw [← List.map_id prev]
    exact List.map_congr_left (fun t ht => if_neg (h t ht))
  · simp only [List.map_cons, List.map_nil]
    congr 1
    by_cases hn : (mkSubtask newId now parentId text).id = parentId
    · rw [if_pos hn]; rfl
    · rw [if_neg hn]

/-- C2 amended, at a concrete input: a collection holding a single unrelated
task, with a stale parent id. -/
theorem claim2_witness :
    addSubtask "n" 5 "p" "x"
        [{ id := "a", text := "t", completed := false, priority := .low,
           createdAt := 0 }] =
      [{ id := "a", text := "t", completed := false, priority := .low,
         createdAt := 0 }] ++ [mkSubtask "n" 5 "p" "x"] :=
  claim2_amended "n" 5 "p" "x" _ (by decide)

/-! ## Claim C3 — regeneration success after the parent was deleted -/

/-- C3: the code violates the claim.  With the parent `"t1"` already deleted
(empty collection), applying the regeneration-success update for `"t1"`
does NOT leave the collection unchanged: it appends a resurrected child
with `parentId = "t1"`.  The update never re-checks the parent's
existence (`src/unnamed/part_000` lines 139–157). -/
theorem claim3_bug_resurrects_children :
    handleBreakdownApply "t1" [⟨"s", Priority.medium⟩] ["c1"] 7 [] =
      [{ id := "c1", text := "s", completed := false, priority := .medium,
         createdAt := 7, isAiGenerated := some true, parentId := some "t1",
         isExpanded := some true }] ∧
    handleBreakdownApply "t1" [⟨"s", Priority.medium⟩] ["c1"] 7 ([] : List Task) ≠ [] := by
  constructor <;> decide

/-! ## Claim C1 — regeneration atomicity -/

/-- A parent task whose `isExpanded` is `false` at the moment the
regeneration success callback fires (e.g. collapsed while the generation
call was in flight). -/
def collapsedParent : Task :=
  { id := "p", text := "t", completed := false, priority := .medium,
    createdAt := 0, isExpanded := some false }

/-- C1 counterexample: the success update alters a task outside P's child
set — P itself.  `collapsedParent` is not a child of `"p"`, yet it does not
survive the update unchanged (its `isExpanded` is forced to `true`). -/
theorem claim1_counterexample :
    collapsedParent.parentId ≠ some "p" ∧
    collapsedParent ∉
      handleBreakdownApply "p" [⟨"s", Priority.medium⟩] ["c"] 1 [collapsedParent] := by
  decide

/-- C1 amended: after a successful regeneration for parent id `id` with a
non-empty suggestion list (fresh ids, one per suggestion), the child set of
`id` is exactly the freshly created tasks (`isAiGenerated = true`,
`completed = false`, `parentId = id`), no prior child survives, and every
task outside `id`'s children is unchanged **except the parent itself, whose
`isExpanded` is forced to `true`**. -/
theorem claim1_amended (id : String) (subtasks : List AiSuggestion)
    (newIds : List String) (now : Int) (prev : List Task)
    (hs : subtasks ≠ [])
    (hlen : newIds.length = subtasks.length)
    (hfresh : ∀ i ∈ newIds, i ∉ prev.map Task.id) :
    (handleBreakdownApply id subtasks newIds now prev).filter
        (fun t => t.parentId == some id) = mkNewSubTasks id subtasks newIds now ∧
    (∀ c ∈ prev, c.parentId = some id →
        c ∉ handleBreakdownApply id subtasks newIds now prev) ∧
    (∀ t ∈ prev, t.parentId ≠ some id → t.id ≠ id →
        t ∈ handleBreakdownApply id subtasks newIds now prev) ∧
    (∀ t ∈ handleBreakdownApply id subtasks newIds now prev, t.parentId ≠ some id →
        t ∈ prev ∨ (t.id = id ∧ ∃ t0 ∈ prev, t0.id = id ∧
          t = { t0 with isExpanded := some true })) ∧
    (∀ c ∈ mkNewSubTasks id subtasks newIds now,
        c.isAiGenerated = some true ∧ c.completed = false ∧ c.parentId = some id) ∧
    (mkNewSubTasks id subtasks newIds now).length = subtasks.length := by
  have hpos : 0 < subtasks.length := List.length_pos.mpr hs
  have hres : handleBreakdownApply id subtasks newIds now prev =
      (prev.filter (fun t => !(t.parentId == some id))).map
        (fun t => if t.id = id then { t with isExpanded := some true } else t)
      ++ mkNewSubTasks id subtasks newIds now := by
    unfold handleBreakdownApply
    rw [if_pos hpos]
  have hsurv : ∀ t ∈ (prev.filter (fun t => !(t.parentId == some id))).map
      (fun t => if t.id = id then { t with isExpanded := some true } else t),
      t.parentId ≠ some id := by
    intro t ht
    obtain ⟨t0, ht0, rfl⟩ := List.mem_map.mp ht
    have h2 := (List.mem_filter.mp ht0).2
    rw [expand_if_parentId]
    simpa using h2
  have hfreshmem : ∀ c ∈ mkNewSubTasks id subtasks newIds now,
      c.parentId = some id ∧ c.isAiGenerated = some true ∧ c.completed = false ∧
      c.id ∈ newIds := by
    intro c hc
    obtain ⟨p, hp, rfl⟩ := List.mem_map.mp hc
    exact ⟨rfl, rfl, rfl, (List.of_mem_zip hp).2⟩
  refine ⟨?_, ?_, ?_, ?_, ?_, ?_⟩
  · rw [hres, List.filter_append]
    have h1 : ((prev.filter (fun t => !(t.parentId == some id))).map
        (fun t => if t.id = id then { t with isExpanded := some true } else t)).filter
        (fun t => t.parentId == some id) = [] := by
      rw [List.filter_eq_nil_iff]
      intro t ht
      have := hsurv t ht
      simpa using this
    have h2 : (mkNewSubTasks id subtasks newIds now).filter
        (fun t => t.parentId == some id) = mkNewSubTasks id subtasks newIds now := by
      rw [List.filter_eq_self]
      intro c hc
      have := (hfreshmem c hc).1
      simpa using this
    rw [h1, h2, List.nil_append]
  · intro c hc hcp
    rw [hres]
    intro hmem
    rcases List.mem_append.mp hmem with hm | hm
    · exact hsurv c hm hcp
    · have hid := (hfreshmem c hm).2.2.2
      exact hfresh c.id hid (List.mem_map_of_mem Task.id hc)
  · intro t ht hp hid
    rw [hres]
    apply List.mem_append_left
    apply List.mem_map.mpr
    refine ⟨t, List.mem_filter.mpr ⟨ht, by simpa using hp⟩, if_neg hid⟩
  · intro t ht hp
    rw [hres] at ht
    rcases List.mem_append.mp ht with hm | hm
    · obtain ⟨t0, ht0, rfl⟩ := List.mem_map.mp hm
      have ht0p : t0 ∈ prev := (List.mem_filter.mp ht0).1
      by_cases hid : t0.id = id
      · right
        rw [if_pos hid]
        exact ⟨hid, t0, ht0p, hid, rfl⟩
      · left
        rw [if_neg hid]
        exact ht0p
    · exact absurd (hfreshmem t hm).1 hp
  · intro c hc
    obtain ⟨h1, h2, h3, _⟩ := hfreshmem c hc
    exact ⟨h2, h3, h1⟩
  · unfold mkNewSubTasks
    rw [List.length_map, List.length_zip, hlen, Nat.min_self]

/-- C1 amended, at a concrete input: one parent `"p"` with one stale child,
one suggestion regenerated under fresh id `"c"`; the child set afterwards is
exactly the fresh task. -/
theorem claim1_witness :
    (handleBreakdownApply "p" [⟨"s", Priority.medium⟩] ["c"] 1
        [{ id := "p", text := "t", completed := false, priority := .medium,
           createdAt := 0, isExpanded := some true },
         { id := "old", text := "o", completed := false, priority := .low,
           createdAt := 0, parentId := some "p" }]).filter
        (fun t => t.parentId == some "p") =
      mkNewSubTasks "p" [⟨"s", Priority.medium⟩] ["c"] 1 :=
  (claim1_amended "p" [⟨"s", Priority.medium⟩] ["c"] 1 _
    (by decide) (by decide) (by decide)).1

/-! ## Claim C4 — id uniqueness as a preserved invariant -/

lemma ids_of_map_preserving (g : Task → Task) (h : ∀ t, (g t).id = t.id)
    (l : List Task) : (l.map g).map Task.id = l.map Task.id := by
  rw [List.map_map]
  exact List.map_congr_left (fun t _ => h t)

/-- The ids of the freshly built regeneration children are exactly the
generated `newIds` (when one id was generated per suggestion). -/
lemma ids_mkNewSubTasks (id : String) (subtasks : List AiSuggestion)
    (newIds : List String) (now : Int) (hlen : newIds.length = subtasks.length) :
    (mkNewSubTasks id subtasks newIds now).map Task.id = newIds := by
  unfold mkNewSubTasks
  rw [List.map_map]
  have : (Task.id ∘ fun p : AiSuggestion × String =>
      ({ id := p.2, text := p.1.text, completed := false, priority := p.1.priority,
         createdAt := now, isAiGenerated := some true, parentId := some id,
         isExpanded := some true } : Task)) = Prod.snd := rfl
  rw [this]
  exact List.map_snd_zip _ _ (le_of_eq hlen)

/-- Definitional unfolding of `importTasks` on an array payload. -/
lemma importTasks_arr (imported prev : List RTask) :
    importTasks (.arr imported) prev =
      if imported.all validRecord then
        (if (imported.filter (fun t => !((prev.map (·.id)).contains t.id))).isEmpty then
          (prev, ErrEffect.msg "All tasks in this file are already present.")
        else
          ((prev ++ imported.filter (fun t => !((prev.map (·.id)).contains t.id))).mergeSort
            rtaskLe, ErrEffect.cleared))
      else (prev, ErrEffect.msg "Invalid backup file format.") := rfl

/-- On a valid candidate list, the merged collection is a permutation of the
current collection followed by the incoming records whose ids are not
already present (the normalization sort only permutes). -/
lemma mergeImport_perm (A B : List RTask) (hv : B.all validRecord = true) :
    (mergeImport A B).Perm
      (A ++ B.filter (fun t => !((A.map (·.id)).contains t.id))) := by
  unfold mergeImport
  rw [importTasks_arr, if_pos hv]
  by_cases he : (B.filter (fun t => !((A.map (·.id)).contains t.id))).isEmpty = true
  · rw [if_pos he]
    rw [List.isEmpty_iff.mp he, List.append_nil]
  · rw [if_neg he]
    exact List.mergeSort_perm _ _

/-- C4 counterexample: the merge/import operation does not deduplicate
WITHIN the candidate list.  Importing a two-record list sharing the id
`"a"` into the empty (trivially duplicate-free) collection yields a
collection with a duplicated id. -/
theorem claim4_counterexample :
    (([] : List RTask).map RTask.id).Nodup ∧
    ¬ ((mergeImport []
        [{ id := some "a", text := some "x", createdAt := some 0 },
         { id := some "a", text := some "y", createdAt := some 1 }]).map RTask.id).Nodup := by
  refine ⟨by decide, fun h => ?_⟩
  have hp := (mergeImport_perm []
      [{ id := some "a", text := some "x", createdAt := some 0 },
       { id := some "a", text := some "y", createdAt := some 1 }] (by decide)).map RTask.id
  rw [hp.nodup_iff] at h
  revert h
  decide

/-- C4 amended: every operation preserves pairwise-distinct task ids,
provided the freshly generated ids (`crypto.randomUUID()`) are fresh and
pairwise distinct, and — for merge/import — provided the candidate list's
own ids are pairwise distinct (the code only deduplicates against the
current collection, not within the incoming batch). -/
theorem claim4_amended :
    (∀ (newId : String) (now : Int) (text : String) (pr : Priority) (ai : Bool)
        (prev : List Task), (prev.map Task.id).Nodup → newId ∉ prev.map Task.id →
        ((addTask newId now text pr ai prev).map Task.id).Nodup) ∧
    (∀ (newId : String) (now : Int) (parentId text : String) (prev : List Task),
        (prev.map Task.id).Nodup → newId ∉ prev.map Task.id →
        ((addSubtask newId now parentId text prev).map Task.id).Nodup) ∧
    (∀ (id : String) (prev : List Task), (prev.map Task.id).Nodup →
        ((toggleTask id prev).map Task.id).Nodup) ∧
    (∀ (id : String) (prev : List Task), (prev.map Task.id).Nodup →
        ((toggleTaskExpansion id prev).map Task.id).Nodup) ∧
    (∀ (id : String) (pr : Priority) (prev : List Task), (prev.map Task.id).Nodup →
        ((updateTaskPriority id pr prev).map Task.id).Nodup) ∧
    (∀ (id : String) (prev : List Task), (prev.map Task.id).Nodup →
        ((deleteTask id prev).map Task.id).Nodup) ∧
    (∀ (id : String) (subtasks : List AiSuggestion) (newIds : List String) (now : Int)
        (prev : List Task), (prev.map Task.id).Nodup → newIds.Nodup →
        (∀ i ∈ newIds, i ∉ prev.map Task.id) → newIds.length = subtasks.length →
        ((handleBreakdownApply id subtasks newIds now prev).map Task.id).Nodup) ∧
    (∀ (A B : List RTask), (A.map RTask.id).Nodup → (B.map RTask.id).Nodup →
        ((mergeImport A B).map RTask.id).Nodup) := by
  refine ⟨?_, ?_, ?_, ?_, ?_, ?_, ?_, ?_⟩
  · intro newId now text pr ai prev hnd hfresh
    unfold addTask
    rw [List.map_cons]
    exact List.Nodup.cons hfresh hnd
  · intro newId now parentId text prev hnd hfresh
    unfold addSubtask
    rw [ids_of_map_preserving _ (expand_if_id parentId), List.map_append]
    refine (List.nodup_append).mpr ⟨hnd, List.nodup_singleton _, ?_⟩
    intro a ha hb
    simp only [mkSubtask, List.map_cons, List.map_nil, List.mem_singleton] at hb
    exact hfresh (hb ▸ ha)
  · intro id prev hnd
    unfold toggleTask
    rw [ids_of_map_preserving _ (fun t => by split <;> rfl)]
    exact hnd
  · intro id prev hnd
    unfold toggleTaskExpansion
    rw [ids_of_map_preserving _ (fun t => by split <;> rfl)]
    exact hnd
  · intro id pr prev hnd
    unfold updateTaskPriority
    rw [ids_of_map_preserving _ (fun t => by split <;> rfl)]
    exact hnd
  · intro id prev hnd
    exact hnd.sublist ((List.filter_sublist prev).map Task.id)
  · intro id subtasks newIds now prev hnd hnewnd hfresh hlen
    unfold handleBreakdownApply
    split
    · rw [List.map_append, ids_of_map_preserving _ (expand_if_id id),
        ids_mkNewSubTasks id subtasks newIds now hlen]
      have hsub : List.Sublist
          ((prev.filter (fun t => !(t.parentId == some id))).map Task.id)
          (prev.map Task.id) := (List.filter_sublist prev).map Task.id
      refine List.Nodup.append (hnd.sublist hsub) hnewnd ?_
      intro a ha hb
      exact hfresh a hb (hsub.mem ha)
    · exact hnd
  · intro A B hA hB
    by_cases hv : B.all validRecord = true
    · have hp := (mergeImport_perm A B hv).map RTask.id
      rw [hp.nodup_iff, List.map_append]
      have hBsub : List.Sublist
          ((B.filter (fun t => !((A.map (·.id)).contains t.id))).map RTask.id)
          (B.map RTask.id) := (List.filter_sublist B).map RTask.id
      refine List.Nodup.append hA (hB.sublist hBsub) ?_
      intro a ha hb
      obtain ⟨t, htm, rfl⟩ := List.mem_map.mp hb
      have hcond := (List.mem_filter.mp htm).2
      simp at hcond
      obtain ⟨u, hu, he⟩ := List.mem_map.mp ha
      exact hcond u hu he
    · have : mergeImport A B = A := by
        show (importTasks (.arr B) A).1 = A
        rw [importTasks_arr, if_neg hv]
      rw [this]
      exact hA

/-- C4 amended, at concrete inputs: adding a fresh-id task to a singleton
collection keeps ids distinct, and merging a distinct-id batch into a
distinct-id collection keeps ids distinct. -/
theorem claim4_witness :
    ((addTask "b" 1 "y" .medium false
        [{ id := "a", text := "x", completed := false, priority := .low,
           createdAt := 0 }]).map Task.id).Nodup ∧
    ((mergeImport [{ id := some "a", text := some "x", createdAt := some 0 }]
        [{ id := some "a", text := some "x", createdAt := some 0 },
         { id := some "b", text := some "y", createdAt := some 1 }]).map RTask.id).Nodup :=
  ⟨claim4_amended.1 "b" 1 "y" .medium false _ (by decide) (by decide),
   claim4_amended.2.2.2.2.2.2.2 _ _ (by decide) (by decide)⟩

/-! ## Claim C8 — merge deduplicates by id and is idempotent -/

/-- Every record of the candidate list has its id present in the merged
collection (either it was already in `A`, or it was added). -/
lemma mem_ids_mergeImport (A B : List RTask) (hv : B.all validRecord = true) :
    ∀ b ∈ B, b.id ∈ (mergeImport A B).map (·.id) := by
  intro b hb
  have hp := (mergeImport_perm A B hv).map (fun x : RTask => x.id)
  rw [hp.mem_iff, List.map_append, List.mem_append]
  by_cases hc : b.id ∈ A.map (fun x : RTask => x.id)
  · exact Or.inl hc
  · refine Or.inr (List.mem_map.mpr ⟨b, List.mem_filter.mpr ⟨hb, ?_⟩, rfl⟩)
    simpa using hc

/-- Merging the same candidate list twice changes nothing the second time. -/
lemma mergeImport_idem (A B : List RTask) :
    mergeImport (mergeImport A B) B = mergeImport A B := by
  by_cases hv : B.all validRecord = true
  · have huniq : B.filter
        (fun t => !(((mergeImport A B).map (·.id)).contains t.id)) = [] := by
      rw [List.filter_eq_nil_iff]
      intro b hb
      simpa using mem_ids_mergeImport A B hv b hb
    show (importTasks (.arr B) (mergeImport A B)).1 = mergeImport A B
    rw [importTasks_arr, if_pos hv, huniq]
    rfl
  · have h1 : mergeImport A B = A := by
      show (importTasks (.arr B) A).1 = A
      rw [importTasks_arr, if_neg hv]
    rw [h1]
    exact h1

/-- C8: merge deduplicates against the current collection's ids (the merged
collection is the current one plus exactly the incoming records whose ids
were not yet present), and re-merging the same candidate list is the
identity — in particular the id set is unchanged. -/
theorem claim8_merge_dedup_idempotent :
    (∀ A B : List RTask, B.all validRecord = true →
      (mergeImport A B).Perm
        (A ++ B.filter (fun t => !((A.map (·.id)).contains t.id)))) ∧
    (∀ A B : List RTask, mergeImport (mergeImport A B) B = mergeImport A B) ∧
    (∀ A B : List RTask,
      ((mergeImport (mergeImport A B) B).map (·.id)).toFinset =
        ((mergeImport A B).map (·.id)).toFinset) := by
  refine ⟨mergeImport_perm, mergeImport_idem, fun A B => ?_⟩
  rw [mergeImport_idem]

/-- C8, at the spec's concrete scenario: importing `[{id:1,text:X},{id:2,text:Y}]`
into a collection already containing id `1` adds exactly the record with
id `2`. -/
theorem claim8_witness :
    (mergeImport [{ id := some "1", text := some "Z", createdAt := some 0 }]
        [{ id := some "1", text := some "X" }, { id := some "2", text := some "Y" }]).Perm
      (([{ id := some "1", text := some "Z", createdAt := some 0 }] : List RTask) ++
       ([{ id := some "1", text := some "X" },
         { id := some "2", text := some "Y" }] : List RTask).filter
         (fun t =>
           !((([{ id := some "1", text := some "Z", createdAt := some 0 }] :
             List RTask).map (·.id)).contains t.id))) :=
  claim8_merge_dedup_idempotent.1 _ _ (by decide)

/-! ## Claim C9 — malformed import payloads -/

/-- C9 counterexample: a payload that is not an array leaves the collection
unchanged but produces NO user-visible error message — the `Array.isArray`
check has no else-branch, so the payload is silently ignored. -/
theorem claim9_counterexample :
    (importTasks .nonArray [{ id := some "a", text := some "x", createdAt := some 0 }]).1 =
      [{ id := some "a", text := some "x", createdAt := some 0 }] ∧
    ((importTasks .nonArray
        [{ id := some "a", text := some "x", createdAt := some 0 }]).2).isError = false := by
  constructor
  · rfl
  · rfl

/-- C9 amended: an array payload containing a record with a missing or empty
id or text is rejected with no mutation and the user-visible message
"Invalid backup file format."; a payload that is not an array also leaves
the collection unchanged but is silently ignored, with no error message. -/
theorem claim9_amended :
    (∀ (prev recs : List RTask), ¬ recs.all validRecord = true →
      importTasks (.arr recs) prev =
        (prev, ErrEffect.msg "Invalid backup file format.")) ∧
    (∀ prev : List RTask, importTasks .nonArray prev = (prev, ErrEffect.untouched)) := by
  constructor
  · intro prev recs hv
    rw [importTasks_arr, if_neg hv]
  · intro prev
    rfl

/-- C9 amended, at the spec's concrete scenario: importing `[{id:"bad"}]`
(missing text) rejects the operation, leaves the collection unchanged and
reports an error. -/
theorem claim9_witness :
    importTasks (.arr [{ id := some "bad" }])
        [{ id := some "a", text := some "x", createdAt := some 0 }] =
      ([{ id := some "a", text := some "x", createdAt := some 0 }],
        ErrEffect.msg "Invalid backup file format.") :=
  claim9_amended.1 _ [{ id := some "bad" }] (by decide)

/-! ## Claim C10 — validation is shallow, records merged as given -/

/-- C10: when every record carries a non-empty id and text, validation
passes regardless of any other missing field; the merged collection is the
current one plus exactly the incoming records with new ids, each taken
verbatim (no defaulting or normalization — every element of the result is
an element of `prev` or of `recs` unchanged). -/
theorem claim10_shallow_validation (prev recs : List RTask)
    (hv : ∀ r ∈ recs, validRecord r = true) :
    recs.all validRecord = true ∧
    (importTasks (.arr recs) prev).1.Perm
      (prev ++ recs.filter (fun t => !((prev.map (·.id)).contains t.id))) ∧
    (∀ t ∈ (importTasks (.arr recs) prev).1, t ∈ prev ∨ t ∈ recs) ∧
    (∀ t ∈ recs, t.id ∉ prev.map (·.id) → t ∈ (importTasks (.arr recs) prev).1) := by
  have hall : recs.all validRecord = true := List.all_eq_true.mpr (fun r hr => hv r hr)
  have hp : (importTasks (.arr recs) prev).1.Perm
      (prev ++ recs.filter (fun t => !((prev.map (·.id)).contains t.id))) :=
    mergeImport_perm prev recs hall
  refine ⟨hall, hp, ?_, ?_⟩
  · intro t ht
    rcases List.mem_append.mp (hp.mem_iff.mp ht) with hm | hm
    · exact Or.inl hm
    · exact Or.inr (List.mem_filter.mp hm).1
  · intro t ht hni
    refine hp.mem_iff.mpr (List.mem_append_right _ (List.mem_filter.mpr ⟨ht, ?_⟩))
    simpa using hni

/-- C10, at a concrete input: a record with non-empty id and text but no
`completed`, `priority` or `createdAt` fields passes validation and lands
in the collection exactly as given. -/
theorem claim10_witness :
    ({ id := some "1", text := some "X" } : RTask) ∈
      (importTasks (.arr [{ id := some "1", text := some "X" }]) []).1 :=
  (claim10_shallow_validation [] [{ id := some "1", text := some "X" }]
    (by decide)).2.2.2 _ (by decide) (by decide)

/-! ## Tree Builder lemmas -/

/-- Concatenation of all child groups of the children map. -/
def groupsFlat (m : List (String × List Task)) : List Task :=
  (m.map Prod.snd).flatten

lemma isRootIn_false_iff (ids : List String) (t : Task) :
    isRootIn ids t = false ↔ ∃ p, t.parentId = some p ∧ ¬p = "" ∧ p ∈ ids := by
  rcases hp : t.parentId with _ | p <;> simp [isRootIn, hp]

lemma isRootIn_true_iff (ids : List String) (t : Task) :
    isRootIn ids t = true ↔
      t.parentId = none ∨ t.parentId = some "" ∨
        ∃ p, t.parentId = some p ∧ p ∉ ids := by
  rcases hp : t.parentId with _ | p
  · simp [isRootIn, hp]
  · simp only [isRootIn, hp, Bool.or_eq_true, beq_iff_eq, Bool.not_eq_true',
      Option.some.injEq, reduceCtorEq, false_or, Option.some.injEq]
    constructor
    · rintro (he | hc)
      · exact Or.inl he
      · exact Or.inr ⟨p, rfl, by simpa using hc⟩
    · rintro (he | ⟨p', hp', hc⟩)
      · exact Or.inl he
      · subst hp'
        exact Or.inr (by simpa using hc)

lemma lookupGroup_nil (q : String) : lookupGroup [] q = [] := rfl

lemma lookupGroup_cons (r : String) (l : List Task) (rest : List (String × List Task))
    (q : String) :
    lookupGroup ((r, l) :: rest) q = if r = q then l else lookupGroup rest q := rfl

lemma insertChild_nil (p : String) (t : Task) : insertChild [] p t = [(p, [t])] := rfl

lemma insertChild_cons (r : String) (l : List Task) (rest : List (String × List Task))
    (p : String) (t : Task) :
    insertChild ((r, l) :: rest) p t =
      if r = p then (r, l ++ [t]) :: rest else (r, l) :: insertChild rest p t := rfl

lemma classifyStep_fst (ids : List String) (acc : List Task × List (String × List Task))
    (t : Task) :
    (classifyStep ids acc t).1 = if isRootIn ids t then acc.1 ++ [t] else acc.1 := by
  by_cases h : isRootIn ids t = true
  · simp [classifyStep, h]
  · rw [if_neg h]
    unfold classifyStep
    rw [if_neg h]
    rcases hp : t.parentId with _ | p
    · rfl
    · dsimp only
      split <;> rfl

lemma classifyStep_snd_root (ids : List String) (acc : List Task × List (String × List Task))
    (t : Task) (h : isRootIn ids t = true) :
    (classifyStep ids acc t).2 = acc.2 := by
  simp [classifyStep, h]

lemma classifyStep_snd_nonroot (ids : List String)
    (acc : List Task × List (String × List Task)) (t : Task) (p : String)
    (h : isRootIn ids t = false) (hp : t.parentId = some p) :
    (classifyStep ids acc t).2 = insertChild acc.2 p t := by
  obtain ⟨p', hp', hne, -⟩ := (isRootIn_false_iff ids t).mp h
  rw [hp] at hp'
  obtain rfl : p = p' := by injection hp'
  unfold classifyStep
  rw [h]
  simp only [Bool.false_eq_true, if_false, hp]
  rw [if_neg (by simpa using hne)]

lemma classifyAux_fst (ids : List String) (l : List Task)
    (acc : List Task × List (String × List Task)) :
    (classifyAux ids l acc).1 = acc.1 ++ l.filter (fun t => isRootIn ids t) := by
  induction l generalizing acc with
  | nil => simp [classifyAux]
  | cons hd tl ih =>
    show (classifyAux ids tl (classifyStep ids acc hd)).1 = _
    rw [ih, classifyStep_fst]
    by_cases h : isRootIn ids hd = true
    · rw [if_pos h, List.filter_cons_of_pos h, List.append_assoc]
      rfl
    · rw [if_neg h, List.filter_cons_of_neg (by simpa using h)]

lemma lookupGroup_insertChild (m : List (String × List Task)) (p q : String) (t : Task) :
    lookupGroup (insertChild m p t) q =
      if q = p then lookupGroup m q ++ [t] else lookupGroup m q := by
  induction m with
  | nil =>
    rw [insertChild_nil, lookupGroup_cons, lookupGroup_nil]
    split_ifs <;> simp_all
  | cons hd tl ih =>
    obtain ⟨r, l⟩ := hd
    rw [insertChild_cons]
    by_cases hr : r = p
    · rw [if_pos hr]
      clear ih
      simp only [lookupGroup_cons]
      split_ifs <;> simp_all
    · rw [if_neg hr]
      simp only [lookupGroup_cons, ih]
      clear ih
      split_ifs <;> simp_all

lemma classifyAux_group (ids : List String) (l : List Task)
    (acc : List Task × List (String × List Task)) (q : String) :
    lookupGroup (classifyAux ids l acc).2 q =
      lookupGroup acc.2 q ++
        l.filter (fun t => !isRootIn ids t && t.parentId == some q) := by
  induction l generalizing acc with
  | nil => simp [classifyAux]
  | cons hd tl ih =>
    show lookupGroup (classifyAux ids tl (classifyStep ids acc hd)).2 q = _
    rw [ih]
    by_cases h : isRootIn ids hd = true
    · rw [classifyStep_snd_root ids acc hd h,
        List.filter_cons_of_neg (by simp [h])]
    · have h' : isRootIn ids hd = false := by simpa using h
      obtain ⟨p, hp, -, -⟩ := (isRootIn_false_iff ids hd).mp h'
      rw [classifyStep_snd_nonroot ids acc hd p h' hp, lookupGroup_insertChild]
      by_cases hq : q = p
      · subst hq
        rw [if_pos rfl, List.filter_cons_of_pos (by simp [h', hp]),
          List.append_assoc]
        rfl
      · rw [if_neg hq,
          List.filter_cons_of_neg (by simp [h', hp]; exact fun hh => hq hh.symm)]

lemma groupsFlat_insertChild (m : List (String × List Task)) (p : String) (t : Task) :
    (groupsFlat (insertChild m p t)).Perm (groupsFlat m ++ [t]) := by
  induction m with
  | nil => simp [insertChild_nil, groupsFlat]
  | cons hd tl ih =>
    obtain ⟨r, l⟩ := hd
    rw [insertChild_cons]
    by_cases hr : r = p
    · rw [if_pos hr]
      show (l ++ [t] ++ groupsFlat tl).Perm (l ++ groupsFlat tl ++ [t])
      rw [List.append_assoc, List.append_assoc]
      exact List.Perm.append_left l (List.perm_append_comm)
    · rw [if_neg hr]
      show (l ++ groupsFlat (insertChild tl p t)).Perm (l ++ groupsFlat tl ++ [t])
      rw [List.append_assoc]
      exact List.Perm.append_left l ih

lemma classifyAux_flat (ids : List String) (l : List Task)
    (acc : List Task × List (String × List Task)) :
    (groupsFlat (classifyAux ids l acc).2).Perm
      (groupsFlat acc.2 ++ l.filter (fun t => !isRootIn ids t)) := by
  induction l generalizing acc with
  | nil => simp [classifyAux]
  | cons hd tl ih =>
    show (groupsFlat (classifyAux ids tl (classifyStep ids acc hd)).2).Perm _
    refine (ih (classifyStep ids acc hd)).trans ?_
    by_cases h : isRootIn ids hd = true
    · rw [classifyStep_snd_root ids acc hd h,
        List.filter_cons_of_neg (by simp [h])]
    · have h' : isRootIn ids hd = false := by simpa using h
      obtain ⟨p, hp, -, -⟩ := (isRootIn_false_iff ids hd).mp h'
      rw [classifyStep_snd_nonroot ids acc hd p h' hp,
        List.filter_cons_of_pos (by simp [h'])]
      refine ((groupsFlat_insertChild acc.2 p hd).append_right _).trans ?_
      rw [List.append_assoc]
      exact List.Perm.refl _

lemma classify_fst (ts : List Task) :
    (classify ts).1 = ts.filter (fun t => isRootIn (ts.map Task.id) t) := by
  rw [classify, classifyAux_fst]
  rfl

lemma classify_group (ts : List Task) (q : String) :
    lookupGroup (classify ts).2 q =
      ts.filter (fun t => !isRootIn (ts.map Task.id) t && t.parentId == some q) := by
  rw [classify, classifyAux_group]
  rfl

lemma classify_flat (ts : List Task) :
    (groupsFlat (classify ts).2).Perm
      (ts.filter (fun t => !isRootIn (ts.map Task.id) t)) := by
  have h := classifyAux_flat (ts.map Task.id) ts ([], [])
  simpa [groupsFlat] using h


lemma sortedTree_fst (ts : List Task) :
    (sortedTree ts).1 = sortTasks (classify ts).1 := rfl

lemma sortedTree_snd (ts : List Task) :
    (sortedTree ts).2 = (classify ts).2.map (fun pl => (pl.1, sortTasks pl.2)) := rfl

lemma lookupGroup_map_sort (m : List (String × List Task)) (p : String) :
    lookupGroup (m.map (fun pl => (pl.1, sortTasks pl.2))) p =
      sortTasks (lookupGroup m p) := by
  induction m with
  | nil =>
    rw [List.map_nil, lookupGroup_nil, sortTasks, List.mergeSort_nil]
  | cons hd tl ih =>
    obtain ⟨r, l⟩ := hd
    rw [List.map_cons, lookupGroup_cons, lookupGroup_cons]
    by_cases h : r = p
    · rw [if_pos h, if_pos h]
    · rw [if_neg h, if_neg h, ih]

lemma groupsFlat_map_sort (m : List (String × List Task)) :
    (groupsFlat (m.map (fun pl => (pl.1, sortTasks pl.2)))).Perm (groupsFlat m) := by
  induction m with
  | nil => exact List.Perm.refl _
  | cons hd tl ih =>
    show (sortTasks hd.2 ++ groupsFlat (tl.map _)).Perm (hd.2 ++ groupsFlat tl)
    exact List.Perm.append (List.mergeSort_perm _ _) ih

lemma nonroot_child_iff (ids : List String) (t : Task) (p : String) :
    (!isRootIn ids t && t.parentId == some p) = true ↔
      t.parentId = some p ∧ ¬p = "" ∧ p ∈ ids := by
  simp only [Bool.and_eq_true, Bool.not_eq_true', beq_iff_eq]
  constructor
  · rintro ⟨hf, hp⟩
    obtain ⟨p', hp', hne, hmem⟩ := (isRootIn_false_iff ids t).mp hf
    rw [hp] at hp'
    obtain rfl : p' = p := by
      injection hp' with h
      exact h.symm
    exact ⟨hp, hne, hmem⟩
  · rintro ⟨hp, hne, hmem⟩
    exact ⟨(isRootIn_false_iff ids t).mpr ⟨p, hp, hne, hmem⟩, hp⟩

/-! ## Claim C6 — the Tree Builder partitions the filtered tasks -/

/-- A task whose id is the empty string (importable, since only the
`TaskList` is affected; ids are never validated to be non-empty by the
tree builder). -/
def emptyIdTask : Task :=
  { id := "", text := "a", completed := false, priority := .medium, createdAt := 0 }

/-- A task whose `parentId` is the empty string, which JS truthiness treats
as "no parentId". -/
def emptyParentChild : Task :=
  { id := "x", text := "b", completed := false, priority := .medium, createdAt := 0,
    parentId := some "" }

/-- C6 counterexample to the root-classification rule as stated: in the
collection `[emptyIdTask, emptyParentChild]` under filter ALL, the task
with `parentId = some ""` has a parent id that DOES match an id present in
the filtered set (the task with id `""`), so the claim says it is not a
root and lies in the child group keyed by `""`; the code classifies it as
a root (JS `!task.parentId` is true for the empty string) and the child
group for `""` is empty. -/
theorem claim6_counterexample :
    "" ∈ (filterTasks .all [emptyIdTask, emptyParentChild]).map Task.id ∧
    emptyParentChild.parentId = some "" ∧
    emptyParentChild ∈ (sortedTree (filterTasks .all [emptyIdTask, emptyParentChild])).1 ∧
    lookupGroup (sortedTree (filterTasks .all [emptyIdTask, emptyParentChild])).2 "" = [] := by
  refine ⟨by decide, rfl, ?_, ?_⟩
  · show emptyParentChild ∈
      sortTasks (classify (filterTasks .all [emptyIdTask, emptyParentChild])).1
    rw [sortTasks, List.mem_mergeSort]
    decide
  · rw [sortedTree_snd, lookupGroup_map_sort]
    have h : lookupGroup (classify (filterTasks .all [emptyIdTask, emptyParentChild])).2 ""
        = [] := by decide
    rw [h, sortTasks, List.mergeSort_nil]

/-- C6 amended: the Tree Builder partitions the filtered tasks exactly —
roots plus all child groups are a permutation of the filtered set; a task
is a root iff its `parentId` is absent, **or is the empty string**, or
matches no id present in the filtered set; a non-root appears exactly in
the child group keyed by its parent id. -/
theorem claim6_amended (coll : List Task) (f : FilterType) :
    ((sortedTree (filterTasks f coll)).1 ++
        groupsFlat (sortedTree (filterTasks f coll)).2).Perm (filterTasks f coll) ∧
    (∀ t : Task, t ∈ (sortedTree (filterTasks f coll)).1 ↔
        t ∈ filterTasks f coll ∧
          (t.parentId = none ∨ t.parentId = some "" ∨
            ∃ p, t.parentId = some p ∧ p ∉ (filterTasks f coll).map Task.id)) ∧
    (∀ (p : String) (t : Task),
        t ∈ lookupGroup (sortedTree (filterTasks f coll)).2 p ↔
          t ∈ filterTasks f coll ∧ t.parentId = some p ∧ ¬p = "" ∧
            p ∈ (filterTasks f coll).map Task.id) := by
  refine ⟨?_, ?_, ?_⟩
  · have h1 : ((sortedTree (filterTasks f coll)).1).Perm (classify (filterTasks f coll)).1 := by
      rw [sortedTree_fst, sortTasks]
      exact List.mergeSort_perm _ _
    have h2 : (groupsFlat (sortedTree (filterTasks f coll)).2).Perm
        (groupsFlat (classify (filterTasks f coll)).2) := by
      rw [sortedTree_snd]
      exact groupsFlat_map_sort _
    refine (h1.append h2).trans ?_
    refine (List.Perm.append_left _ (classify_flat (filterTasks f coll))).trans ?_
    rw [classify_fst]
    exact List.filter_append_perm _ (filterTasks f coll)
  · intro t
    rw [sortedTree_fst, sortTasks, List.mem_mergeSort, classify_fst, List.mem_filter]
    exact and_congr_right (fun _ => isRootIn_true_iff _ t)
  · intro p t
    rw [sortedTree_snd, lookupGroup_map_sort, sortTasks, List.mem_mergeSort,
      classify_group, List.mem_filter]
    exact and_congr_right (fun _ => nonroot_child_iff _ t p)

/-! ## Claim C7 — sorting order, stability and determinism -/

/-- The ordering the spec describes: descending priority weight, ties by
descending `createdAt` (non-strict within equal keys). -/
def descOrd (a b : Task) : Prop :=
  priorityWeight b.priority < priorityWeight a.priority ∨
    (priorityWeight a.priority = priorityWeight b.priority ∧ b.createdAt ≤ a.createdAt)

lemma cmpTasks_def (a b : Task) :
    cmpTasks a b =
      if priorityWeight b.priority - priorityWeight a.priority ≠ 0 then
        priorityWeight b.priority - priorityWeight a.priority
      else b.createdAt - a.createdAt := rfl

lemma taskLe_total (a b : Task) : taskLe a b || taskLe b a := by
  simp only [taskLe, cmpTasks_def, Bool.or_eq_true, decide_eq_true_eq]
  split_ifs <;> omega

lemma taskLe_trans (a b c : Task) : taskLe a b → taskLe b c → taskLe a c := by
  simp only [taskLe, cmpTasks_def, decide_eq_true_eq]
  intro h1 h2
  split_ifs at h1 h2 ⊢ <;> omega

lemma taskLe_iff (a b : Task) : taskLe a b = true ↔ descOrd a b := by
  simp only [taskLe, cmpTasks_def, decide_eq_true_eq, descOrd]
  split_ifs with h <;> constructor <;> intro h' <;> omega

lemma sortTasks_sorted (l : List Task) : (sortTasks l).Pairwise descOrd := by
  have h : (List.mergeSort l taskLe).Pairwise (fun a b => taskLe a b = true) :=
    List.sorted_mergeSort (fun a b c => taskLe_trans a b c)
      (fun a b => taskLe_total a b) l
  exact h.imp (fun hab => (taskLe_iff _ _).mp hab)

/-- The sort key the comparator distinguishes: priority weight and
creation time. -/
def sameKey (w c : Int) (t : Task) : Bool :=
  priorityWeight t.priority == w && t.createdAt == c

/-- Stability of `sortTasks`: the subsequence of tasks sharing one sort key
is exactly the same (same tasks, same relative order) as in the input. -/
lemma sortTasks_stable (l : List Task) (w c : Int) :
    (sortTasks l).filter (sameKey w c) = l.filter (sameKey w c) := by
  have hself : (l.filter (sameKey w c)).filter (sameKey w c) = l.filter (sameKey w c) :=
    List.filter_eq_self.mpr (fun a ha => (List.mem_filter.mp ha).2)
  have hsub1 : List.Sublist (l.filter (sameKey w c)) (sortTasks l) := by
    rw [sortTasks]
    apply List.sublist_mergeSort (fun a b c' => taskLe_trans a b c')
      (fun a b => taskLe_total a b)
    · apply List.pairwise_of_forall_mem_list
      intro a ha b hb
      have ha' := (List.mem_filter.mp ha).2
      have hb' := (List.mem_filter.mp hb).2
      simp only [sameKey, Bool.and_eq_true, beq_iff_eq] at ha' hb'
      show taskLe a b = true
      simp only [taskLe, cmpTasks_def, decide_eq_true_eq]
      obtain ⟨hw1, hc1⟩ := ha'
      obtain ⟨hw2, hc2⟩ := hb'
      split_ifs <;> omega
    · exact List.filter_sublist l
  have hsub2 : List.Sublist (l.filter (sameKey w c))
      ((sortTasks l).filter (sameKey w c)) := by
    have h := hsub1.filter (sameKey w c)
    rwa [hself] at h
  have hlen : ((sortTasks l).filter (sameKey w c)).length =
      (l.filter (sameKey w c)).length :=
    ((List.mergeSort_perm l taskLe).filter (sameKey w c)).length_eq
  exact (hsub2.eq_of_length hlen.symm).symm

/-- C7: the Tree Builder sorts the roots and, independently, each child
group by descending priority with ties broken by descending `createdAt`;
the sort is stable (tasks with equal priority and equal `createdAt` keep
their input order — `sortTasks_stable` applied to each key class) and a
permutation of its input; being a pure function it is reproducible across
repeated calls on identical input. -/
theorem claim7_sorted_deterministic :
    (∀ ts : List Task, ((sortedTree ts).1).Pairwise descOrd) ∧
    (∀ ts : List Task, ∀ pg ∈ (sortedTree ts).2, (pg.2).Pairwise descOrd) ∧
    (∀ (l : List Task) (w c : Int),
      (sortTasks l).filter (sameKey w c) = l.filter (sameKey w c)) ∧
    (∀ l : List Task, (sortTasks l).Perm l) := by
  refine ⟨?_, ?_, sortTasks_stable, fun l => List.mergeSort_perm l taskLe⟩
  · intro ts
    exact sortTasks_sorted (classify ts).1
  · intro ts pg hpg
    rw [sortedTree_snd] at hpg
    obtain ⟨pl, hpl, rfl⟩ := List.mem_map.mp hpg
    exact sortTasks_sorted pl.2

/-- A parent and one child, to instantiate the per-group sortedness clause. -/
def parentP : Task :=
  { id := "p", text := "P", completed := false, priority := .medium, createdAt := 0 }

/-- A child of `parentP`. -/
def childC : Task :=
  { id := "c1", text := "C", completed := false, priority := .medium, createdAt := 1,
    parentId := some "p" }

/-- C7, at a concrete input: the single child group produced for
`[parentP, childC]` is sorted. -/
theorem claim7_witness :
    (("p", sortTasks [childC]) : String × List Task).2.Pairwise descOrd :=
  claim7_sorted_deterministic.2.1 [parentP, childC] ("p", sortTasks [childC])
    (by
      show ("p", sortTasks [childC]) ∈
        (classify [parentP, childC]).2.map (fun pl => (pl.1, sortTasks pl.2))
      have hcl : (classify [parentP, childC]).2 = [("p", [childC])] := by decide
      rw [hcl]
      exact List.mem_singleton_self _)

end TaskFlow
